import Mathlib

/-!
Verification development for the `react-vite-boilerplate` scaffolder core:
the validation, rollback, error-formatting and package-manager-selection
subsystem.  JavaScript values are shallowly embedded: strings are `List Char`,
nullable / non-string inputs are an explicit sum type, the filesystem and
process environment are explicit function-valued parameters, and thrown
exceptions are `Except` values.  `chalk` styling is modelled as the identity
on text.
-/

set_option maxRecDepth 4000

/-- JavaScript strings, modelled as lists of characters. -/
abbrev JStr := List Char

/- ### Rollback manager (src/lib/error-handler.js, lines 33-77) -/

/-- One registered rollback action: the outcome its underlying function
produces when invoked (`.ok` for normal return, `.error m` for a thrown
exception with message `m`), together with its description string. -/
structure RbAction where
  run : Except JStr Unit
  description : JStr

/-- The rollback manager state: the ordered action list and the
`completed` flag (constructor sets `actions = []`, `completed = false`). -/
structure RollbackManager where
  actions : List RbAction
  completed : Bool

/-- `new RollbackManager()`. -/
def newRollbackManager : RollbackManager := ⟨[], false⟩

/-- `addAction(action, description)`: `this.actions.push({action, description})`. -/
def addAction (m : RollbackManager) (a : RbAction) : RollbackManager :=
  ⟨m.actions ++ [a], m.completed⟩

/-- `markCompleted()`: `this.completed = true`. -/
def markCompleted (m : RollbackManager) : RollbackManager :=
  ⟨m.actions, true⟩

/-- The body of the `for (let i = this.actions.length - 1; i >= 0; i--)` loop
of `execute()`, applied to the actions in the order the loop visits them
(last added first, i.e. to `actions.reverse`).  Each iteration invokes the
action inside `try { ... } catch (error) { log }`: a thrown error is caught
and recorded, and iteration continues.  Returns the invoked actions in
invocation order together with the caught error messages. -/
def execLoop : List RbAction → List RbAction × List JStr
  | [] => ([], [])
  | a :: rest =>
    let caught : List JStr :=
      match a.run with
      | Except.ok _ => []
      | Except.error e => [e]
    let r := execLoop rest
    (a :: r.1, caught ++ r.2)

/-- `async execute()`: returns immediately when `completed` is already set,
otherwise sets `completed = true` *before* running any action, then runs the
loop.  The result type is `Except` so that a thrown/rejected `execute` would
show up as `.error`; the per-action `try/catch` is inside `execLoop`. -/
def execute (m : RollbackManager) :
    Except JStr (RollbackManager × List RbAction × List JStr) :=
  if m.completed then Except.ok (m, [], [])
  else
    let r := execLoop m.actions.reverse
    Except.ok (⟨m.actions, true⟩, r.1, r.2)

/-- The manager state after a call to `execute()`. -/
def executeState (m : RollbackManager) : RollbackManager :=
  match execute m with
  | Except.ok r => r.1
  | Except.error _ => m

/-- The sequence of actions invoked by a call to `execute()`, in invocation
order. -/
def executeTrace (m : RollbackManager) : List RbAction :=
  match execute m with
  | Except.ok r => r.2.1
  | Except.error _ => []

/-- Operations a caller can perform on an existing manager. -/
inductive RbOp where
  | exec
  | mark
  deriving DecidableEq, Repr

/-- Running one lifetime operation: the successor state and the actions it
invoked. -/
def lifetimeStep (m : RollbackManager) : RbOp → RollbackManager × List RbAction
  | RbOp.exec => (executeState m, executeTrace m)
  | RbOp.mark => (markCompleted m, [])

/-- All actions invoked over a whole sequence of `execute` / `markCompleted`
calls, in invocation order. -/
def lifetimeTrace (m : RollbackManager) : List RbOp → List RbAction
  | [] => []
  | op :: ops =>
    let s := lifetimeStep m op
    s.2 ++ lifetimeTrace s.1 ops

/-- A manager holding the actions `as` (added via `addAction` in order) and
not yet completed. -/
def mkManager (as : List RbAction) : RollbackManager :=
  as.foldl addAction newRollbackManager

/- ### Project-name validation (src/unnamed/part_007, validateProjectName) -/

/-- `String.prototype.toLowerCase`, modelled on the ASCII case mapping (the
only characters relevant to the validator's patterns and reserved names). -/
def jsToLowerChar (c : Char) : Char :=
  if c = 'A' then 'a' else if c = 'B' then 'b' else if c = 'C' then 'c'
  else if c = 'D' then 'd' else if c = 'E' then 'e' else if c = 'F' then 'f'
  else if c = 'G' then 'g' else if c = 'H' then 'h' else if c = 'I' then 'i'
  else if c = 'J' then 'j' else if c = 'K' then 'k' else if c = 'L' then 'l'
  else if c = 'M' then 'm' else if c = 'N' then 'n' else if c = 'O' then 'o'
  else if c = 'P' then 'p' else if c = 'Q' then 'q' else if c = 'R' then 'r'
  else if c = 'S' then 's' else if c = 'T' then 't' else if c = 'U' then 'u'
  else if c = 'V' then 'v' else if c = 'W' then 'w' else if c = 'X' then 'x'
  else if c = 'Y' then 'y' else if c = 'Z' then 'z' else c

/-- `name.toLowerCase()`. -/
def jsToLower (s : JStr) : JStr := s.map jsToLowerChar

/-- JavaScript whitespace characters (the set `String.prototype.trim`
removes), restricted to the representatives relevant here. -/
def wsChars : List Char :=
  [' ', '\t', '\n', '\r', '\x0b', '\x0c', ' ', ' ', ' ']

def jsIsWs (c : Char) : Bool := decide (c ∈ wsChars)

/-- `name.trim()`. -/
def jsTrim (s : JStr) : JStr :=
  ((s.dropWhile jsIsWs).reverse.dropWhile jsIsWs).reverse

def lowerLetters : List Char :=
  ['a', 'b', 'c', 'd', 'e', 'f', 'g', 'h', 'i', 'j', 'k', 'l', 'm',
   'n', 'o', 'p', 'q', 'r', 's', 't', 'u', 'v', 'w', 'x', 'y', 'z']

def upperLetters : List Char :=
  ['A', 'B', 'C', 'D', 'E', 'F', 'G', 'H', 'I', 'J', 'K', 'L', 'M',
   'N', 'O', 'P', 'Q', 'R', 'S', 'T', 'U', 'V', 'W', 'X', 'Y', 'Z']

def digitChars : List Char :=
  ['0', '1', '2', '3', '4', '5', '6', '7', '8', '9']

/-- The character class `[a-z0-9]`. -/
def lowerAlnum : List Char := lowerLetters ++ digitChars

/-- The character class `[a-zA-Z0-9]`. -/
def alnumChars : List Char := lowerLetters ++ upperLetters ++ digitChars

/-- The character class `[a-z0-9\-_.]`. -/
def nameCharsLC : List Char := lowerAlnum ++ ['-', '_', '.']

/-- The characters of the rejection regex `/[~)('!*]/`. -/
def invalidChars : List Char := ['~', ')', '(', '\'', '!', '*']

/-- A character matches `[a-z0-9]` under the `/i` flag exactly when its
ASCII lowercasing lies in the class. -/
def ciAlnumChar (c : Char) : Bool := decide (jsToLowerChar c ∈ lowerAlnum)

/-- A character matches `[a-z0-9\-_.]` under the `/i` flag. -/
def ciNameChar (c : Char) : Bool := decide (jsToLowerChar c ∈ nameCharsLC)

/-- `name.startsWith(ch)` for a one-character prefix. -/
def headIs (s : JStr) (ch : Char) : Bool :=
  match s with
  | [] => false
  | c :: _ => c == ch

/-- The test of `/^[a-z0-9][a-z0-9\-_.]*$/i` on a whole string. -/
def validPatternMatch (s : JStr) : Bool :=
  match s with
  | [] => false
  | c :: cs => ciAlnumChar c && cs.all ciNameChar

/-- The character class `[a-z0-9-~]` (scope pattern, no `/i` flag). -/
def scopeHeadChar (c : Char) : Bool := decide (c ∈ lowerAlnum ++ ['-', '~'])

/-- The character class `[a-z0-9-._~]`. -/
def scopeTailChar (c : Char) : Bool :=
  decide (c ∈ lowerAlnum ++ ['-', '.', '_', '~'])

/-- Helper for splitting on a separator: the first piece and the remaining
pieces of the split. -/
def splitAux (sep : Char) : JStr → JStr × List JStr
  | [] => ([], [])
  | c :: cs =>
    let r := splitAux sep cs
    if c = sep then ([], r.1 :: r.2)
    else (c :: r.1, r.2)

/-- Splitting on a separator character (every piece is separator-free;
`n` separators give `n + 1` pieces). -/
def splitOnChar (sep : Char) (s : JStr) : List JStr :=
  (splitAux sep s).1 :: (splitAux sep s).2

/-- `[a-z0-9-~][a-z0-9-._~]*` on one segment. -/
def segMatch (p : JStr) : Bool :=
  match p with
  | [] => false
  | c :: cs => scopeHeadChar c && cs.all scopeTailChar

/-- The test of `/^@[a-z0-9-~][a-z0-9-._~]*\/[a-z0-9-~][a-z0-9-._~]*$/`:
a leading `@`, then exactly two non-empty `/`-separated segments drawn from
the scope character classes (the classes exclude `/`, so the regex is
equivalent to this split form). -/
def scopePatternMatch (s : JStr) : Bool :=
  match s with
  | '@' :: rest =>
    match splitOnChar '/' rest with
    | [p1, p2] => segMatch p1 && segMatch p2
    | _ => false
  | _ => false

/-- The `RESERVED_NAMES` array. -/
def RESERVED_NAMES : List JStr :=
  ["node_modules".toList, "package".toList, "package.json".toList,
   "package-lock.json".toList, "yarn.lock".toList, "pnpm-lock.yaml".toList,
   "react".toList, "vite".toList, "typescript".toList, "javascript".toList,
   "test".toList, "src".toList, "public".toList, "build".toList,
   "dist".toList, "con".toList, "prn".toList, "aux".toList, "nul".toList,
   "com1".toList, "com2".toList, "com3".toList, "com4".toList,
   "com5".toList, "com6".toList, "com7".toList, "com8".toList,
   "com9".toList, "lpt1".toList, "lpt2".toList, "lpt3".toList,
   "lpt4".toList, "lpt5".toList, "lpt6".toList, "lpt7".toList,
   "lpt8".toList, "lpt9".toList]

/-- `{ valid, error?, warnings? }` results of the validators. -/
structure ValidationResult where
  valid : Bool
  error : Option JStr
  warnings : List JStr

/-- Inputs to `validateProjectName`: a string, `null`, `undefined`, or any
other non-string value. -/
inductive JSValue where
  | str (s : JStr)
  | nullV
  | undefinedV
  | nonString

def reqErr : JStr := "Project name is required".toList

def emptyErr : JStr := "Project name cannot be empty".toList

def lenErr : JStr := "Project name must be less than 214 characters".toList

def startErr : JStr := "Project name cannot start with . or _".toList

def invalidCharsErr : JStr :=
  "Project name contains invalid characters: ~)('!*".toList

def scopeErr : JStr := "Invalid scoped package name format".toList

def charsetErr : JStr :=
  ("Project name can only contain letters, numbers, hyphens, underscores, and dots. Must start with a letter or number.").toList

/-- The interpolated message `"${name}" is a reserved name and cannot be used`. -/
def reservedErr (name : JStr) : JStr :=
  '"' :: (name ++ ('"' :: (" is a reserved name and cannot be used".toList)))

/-- `validateProjectName(name)`, translated check for check.  A `null`,
`undefined`, non-string or empty-string argument fails the JavaScript
truthiness / `typeof` guard; the remaining checks follow the source order. -/
def validateProjectName (v : JSValue) : ValidationResult :=
  match v with
  | JSValue.str name =>
    if name = [] then ⟨false, some reqErr, []⟩
    else if (jsTrim name).length = 0 then ⟨false, some emptyErr, []⟩
    else if 214 < name.length then ⟨false, some lenErr, []⟩
    else if headIs name '.' || headIs name '_' then ⟨false, some startErr, []⟩
    else if name.any (fun c => decide (c ∈ invalidChars)) then
      ⟨false, some invalidCharsErr, []⟩
    else if headIs name '@' then
      if scopePatternMatch name then
        if headIs name '@' = false ∧ jsToLower name ∈ RESERVED_NAMES then
          ⟨false, some (reservedErr name), []⟩
        else ⟨true, none, []⟩
      else ⟨false, some scopeErr, []⟩
    else if validPatternMatch name = false then ⟨false, some charsetErr, []⟩
    else if headIs name '@' = false ∧ jsToLower name ∈ RESERVED_NAMES then
      ⟨false, some (reservedErr name), []⟩
    else ⟨true, none, []⟩
  | _ => ⟨false, some reqErr, []⟩

/-- The claim's trigger pattern `^[a-zA-Z0-9][a-zA-Z0-9_.-]*$` (the spec's
statement of the allowed unscoped charset), case-sensitive as written. -/
def specTailChars : List Char := alnumChars ++ ['_', '.', '-']

def specNamePattern (s : JStr) : Bool :=
  match s with
  | [] => false
  | c :: cs =>
    decide (c ∈ alnumChars) && cs.all (fun x => decide (x ∈ specTailChars))

/- ### POSIX path resolution (Node `path.resolve` / `path.dirname`, as used
by src/unnamed/part_007) -/

/-- Does the second list start with the first? (`String.prototype.startsWith`.) -/
def startsWithList : JStr → JStr → Bool
  | [], _ => true
  | _ :: _, [] => false
  | a :: as, b :: bs => a == b && startsWithList as bs

/-- `String.prototype.includes`: substring test. -/
def containsSub (needle : JStr) : JStr → Bool
  | [] => needle.isEmpty
  | c :: rest => startsWithList needle (c :: rest) || containsSub needle rest

/-- Joining path segments with `/`. -/
def joinSegs : List JStr → JStr
  | [] => []
  | [s] => s
  | s :: rest => s ++ ('/' :: joinSegs rest)

/-- One step of path normalization: empty and `.` segments are dropped,
`..` pops the last accumulated segment (a no-op at the root), and any other
segment is appended. -/
def normStep (acc : List JStr) (seg : JStr) : List JStr :=
  if seg = [] ∨ seg = ['.'] then acc
  else if seg = ['.', '.'] then acc.dropLast
  else acc ++ [seg]

/-- Normalizing the segment list of an absolute path. -/
def normSegs (segs : List JStr) : List JStr := segs.foldl normStep []

/-- Node `path.resolve(p)` on POSIX against a current working directory:
a relative path is joined to `cwd`, then the result is normalized into an
absolute, `.`/`..`-free form. -/
def jsResolve (cwd p : JStr) : JStr :=
  let base := if headIs p '/' then p else cwd ++ ('/' :: p)
  '/' :: joinSegs (normSegs (splitOnChar '/' base))

/-- Node `path.dirname` on POSIX, for the normalized absolute paths it is
applied to here: everything before the last separator, `/` for root-level
entries, `.` when there is no separator. -/
def jsDirname (p : JStr) : JStr :=
  let pre := (p.reverse.dropWhile (fun c => !(c == '/'))).reverse
  if pre = [] then ['.']
  else if pre = ['/'] then ['/']
  else pre.dropLast

/-- Node `path.basename` on POSIX for separator-terminated-free inputs:
everything after the last separator. -/
def jsBasename (p : JStr) : JStr :=
  (p.reverse.takeWhile (fun c => !(c == '/'))).reverse

/-- A path segment produced by normalization: non-empty, not `.`, not `..`,
and separator-free. -/
def CleanSeg (seg : JStr) : Prop :=
  seg ≠ [] ∧ seg ≠ ['.'] ∧ seg ≠ ['.', '.'] ∧ '/' ∉ seg

/- ### Target-directory validation (src/unnamed/part_007, isSafeToRemove and
validateTargetDirectory) -/

/-- The process environment read by `isSafeToRemove`: `process.cwd()` and
`process.env.HOME || process.env.USERPROFILE || '/'`. -/
structure SysEnv where
  cwd : JStr
  home : JStr

/-- The `systemPaths` array: each entry is `path.resolve` of the listed
location. -/
def systemPaths (env : SysEnv) : List JStr :=
  [jsResolve env.cwd ("/".toList),
   jsResolve env.cwd env.home,
   jsResolve env.cwd env.cwd,
   jsResolve env.cwd ("/usr".toList),
   jsResolve env.cwd ("/etc".toList),
   jsResolve env.cwd ("/var".toList),
   jsResolve env.cwd ("/System".toList),
   jsResolve env.cwd ("/Windows".toList),
   jsResolve env.cwd ("/Program Files".toList),
   jsResolve env.cwd ("/Program Files (x86)".toList)]

/-- The `for (const systemPath of systemPaths)` loop: on `resolved ===
systemPath || resolved.startsWith(systemPath + path.sep)` the body is
entered, but only the exact-equality case returns (`false`); otherwise the
loop continues.  `some b` models an early `return b`, `none` falling
through the loop. -/
def sysLoop (resolved : JStr) : List JStr → Option Bool
  | [] => none
  | sys :: rest =>
    if resolved = sys ∨ startsWithList (sys ++ ['/']) resolved = true then
      if resolved = sys then some false else sysLoop resolved rest
    else sysLoop resolved rest

def dotdotSeq : JStr := "..".toList

def tildeSeq : JStr := "~".toList

/-- `isSafeToRemove(dirPath)`: resolve, run the system-path loop, then
reject any resolved path containing `..` or `~`. -/
def isSafeToRemove (env : SysEnv) (dirPath : JStr) : Bool :=
  let resolvedPath := jsResolve env.cwd dirPath
  match sysLoop resolvedPath (systemPaths env) with
  | some b => b
  | none =>
    if containsSub dotdotSeq resolvedPath || containsSub tildeSeq resolvedPath
    then false
    else true

/-- The filesystem facts `validateTargetDirectory` consults: writability
(`fs.accessSync` with `W_OK` not throwing), existence, and directory
listing (`none` models a throwing `fs.readdirSync`). -/
structure FSModel where
  writable : JStr → Bool
  existsDir : JStr → Bool
  entries : JStr → Option (List JStr)

def sysDirErr : JStr :=
  "Cannot create project in system directory or unsafe location".toList

def noWriteErr (parentDir : JStr) : JStr :=
  ("No write permission to directory: ".toList) ++ parentDir

def readDirErr (p : JStr) : JStr :=
  ("Cannot read directory: ".toList) ++ p

def nonEmptyWarn (p : JStr) : JStr :=
  ("Directory ".toList) ++ jsBasename p ++ (" is not empty".toList)

/-- `validateTargetDirectory(targetPath)`, translated check for check (the
source's local `resolvedPath` and `parentDir` constants are inlined). -/
def validateTargetDirectory (env : SysEnv) (fs : FSModel) (targetPath : JStr) :
    ValidationResult :=
  if isSafeToRemove env (jsResolve env.cwd targetPath) = false then
    ⟨false, some sysDirErr, []⟩
  else if fs.writable (jsDirname (jsResolve env.cwd targetPath)) = false then
    ⟨false, some (noWriteErr (jsDirname (jsResolve env.cwd targetPath))), []⟩
  else if fs.existsDir (jsResolve env.cwd targetPath) then
    match fs.entries (jsResolve env.cwd targetPath) with
    | some files =>
      if 0 < files.length then
        ⟨true, none, [nonEmptyWarn (jsResolve env.cwd targetPath)]⟩
      else ⟨true, none, []⟩
    | none => ⟨false, some (readDirErr (jsResolve env.cwd targetPath)), []⟩
  else ⟨true, none, []⟩

/-- A filesystem granting write access everywhere, with no existing target
directory. -/
def permissiveFS : FSModel := ⟨fun _ => true, fun _ => false, fun _ => none⟩

/-- A concrete environment for counterexamples and witnesses. -/
def exEnv : SysEnv := ⟨("/c".toList), ("/h".toList)⟩

/- ### Package-manager registry and resolver (src/unnamed/part_008) -/

structure PMConfig where
  name : String
  installCommand : List String
  lockFile : String
  checkCommand : List String

/-- The `PACKAGE_MANAGERS` object, as the ordered entry list
`Object.entries` iterates (insertion order: npm, yarn, pnpm, bun). -/
def PACKAGE_MANAGERS : List (String × PMConfig) :=
  [("npm",
    { name := "npm", installCommand := ["install"],
      lockFile := "package-lock.json", checkCommand := ["--version"] }),
   ("yarn",
    { name := "yarn", installCommand := ["install"],
      lockFile := "yarn.lock", checkCommand := ["--version"] }),
   ("pnpm",
    { name := "pnpm", installCommand := ["install"],
      lockFile := "pnpm-lock.yaml", checkCommand := ["--version"] }),
   ("bun",
    { name := "bun", installCommand := ["install"],
      lockFile := "bun.lockb", checkCommand := ["--version"] })]

/-- The hard-coded priority order of step 3. -/
def priorityOrder : List String := ["pnpm", "yarn", "bun", "npm"]

/-- `path.join(dir, file)` for the clean inputs used here. -/
def pathJoinStr (dir file : String) : String := dir ++ ("/" ++ file)

/-- `path.dirname(projectDir)`. -/
def dirnameStr (s : String) : String := String.mk (jsDirname s.toList)

/-- One lockfile scan of `getPreferredPackageManager`: walk the registry
entries in order and return the first manager whose lockfile exists in
`dir` and which is contained in `available`. -/
def findLockPM (fsEx : String → Bool) (dir : String) (available : List String) :
    List (String × PMConfig) → Option String
  | [] => none
  | (manager, config) :: rest =>
    if fsEx (pathJoinStr dir config.lockFile) && decide (manager ∈ available)
    then some manager
    else findLockPM fsEx dir available rest

/-- `getPreferredPackageManager(projectDir, available)`, with filesystem
existence abstracted as `fsEx`.  The final line models the JavaScript
`available[0] || 'npm'`, where the empty string is falsy. -/
def getPreferredPackageManager (fsEx : String → Bool) (projectDir : String)
    (available : List String) : String :=
  match findLockPM fsEx projectDir available PACKAGE_MANAGERS with
  | some m => m
  | none =>
    match findLockPM fsEx (dirnameStr projectDir) available PACKAGE_MANAGERS with
    | some m => m
    | none =>
      match priorityOrder.find? (fun m => decide (m ∈ available)) with
      | some m => m
      | none =>
        match available with
        | [] => "npm"
        | a :: _ => if a = "" then "npm" else a

/-- The resolution procedure exactly as claim C5 words it: registry-order
lockfile scan of the project directory, then of its parent, then the fixed
priority order, then "the first element of `available`, or the literal
`npm` when `available` is empty". -/
def claimC5Preferred (fsEx : String → Bool) (projectDir : String)
    (available : List String) : String :=
  match (PACKAGE_MANAGERS.find? (fun p =>
      fsEx (pathJoinStr projectDir p.2.lockFile) && decide (p.1 ∈ available))).map
      Prod.fst with
  | some m => m
  | none =>
    match (PACKAGE_MANAGERS.find? (fun p =>
        fsEx (pathJoinStr (dirnameStr projectDir) p.2.lockFile) &&
          decide (p.1 ∈ available))).map Prod.fst with
    | some m => m
    | none =>
      match priorityOrder.find? (fun m => decide (m ∈ available)) with
      | some m => m
      | none =>
        match available with
        | [] => "npm"
        | a :: _ => a

/-- The claim's resolution procedure with the last step amended to match
the `available[0] || 'npm'` fallback: `npm` is also returned when the first
element of `available` is the empty string. -/
def amendedC5Preferred (fsEx : String → Bool) (projectDir : String)
    (available : List String) : String :=
  match (PACKAGE_MANAGERS.find? (fun p =>
      fsEx (pathJoinStr projectDir p.2.lockFile) && decide (p.1 ∈ available))).map
      Prod.fst with
  | some m => m
  | none =>
    match (PACKAGE_MANAGERS.find? (fun p =>
        fsEx (pathJoinStr (dirnameStr projectDir) p.2.lockFile) &&
          decide (p.1 ∈ available))).map Prod.fst with
    | some m => m
    | none =>
      match priorityOrder.find? (fun m => decide (m ∈ available)) with
      | some m => m
      | none =>
        match available with
        | [] => "npm"
        | a :: _ => if a = "" then "npm" else a

/- ### Error taxonomy and formatter (src/lib/error-handler.js) -/

/-- The `ERROR_TYPES` constants. -/
inductive ErrorType where
  | VALIDATION
  | NETWORK
  | FILESYSTEM
  | PACKAGE_MANAGER
  | TEMPLATE
  | UNKNOWN
  deriving DecidableEq, Repr

/-- The part of the error `context` object the formatter reads. -/
structure ErrContext where
  manager : Option JStr

/-- `BoilerplateError` (the `timestamp` field is never read by the
formatter and is omitted). -/
structure BoilerplateError where
  message : JStr
  type : ErrorType
  context : ErrContext

/-- An argument to `formatErrorMessage`: a `BoilerplateError` or any other
`Error` (only its message is used; the `instanceof` test fails). -/
inductive JsError where
  | boiler (e : BoilerplateError)
  | plain (message : JStr)

def errMessage : JsError → JStr
  | JsError.boiler e => e.message
  | JsError.plain m => m

/-- `chalk` color styling, modelled as the identity on the styled text. -/
def chalk (s : JStr) : JStr := s

/-- The source writes its separators as the literal two-character sequence
backslash-`n` (the `.js` file contains `'\\n'`), reproduced here as-is;
the formatting claims are insensitive to this. -/
def suggestionsHeader : JStr :=
  ("\\n\\n".toList) ++ chalk ("💡 Suggestions:".toList)

def networkSugg : JStr :=
  suggestionsHeader ++
  ("\\n  • Check your internet connection".toList) ++
  ("\\n  • Try using a different network".toList) ++
  ("\\n  • Use --offline flag if available".toList)

def pmSuggBase : JStr :=
  suggestionsHeader ++
  ("\\n  • Try using a different package manager with --pm flag".toList) ++
  ("\\n  • Clear package manager cache".toList) ++
  ("\\n  • Check if package manager is properly installed".toList)

/-- `\n  • Try: ${error.context.manager} cache clean --force`. -/
def cacheCleanLine (m : JStr) : JStr :=
  ("\\n  • Try: ".toList) ++ m ++ (" cache clean --force".toList)

def fsSugg : JStr :=
  suggestionsHeader ++
  ("\\n  • Check file permissions".toList) ++
  ("\\n  • Ensure you have write access to the directory".toList) ++
  ("\\n  • Try running with elevated permissions".toList)

def validationSugg : JStr :=
  suggestionsHeader ++
  ("\\n  • Use only letters, numbers, hyphens, and underscores".toList) ++
  ("\\n  • Start with a letter or number".toList) ++
  ("\\n  • Avoid reserved words".toList)

/-- The `switch (error.type)` of `formatErrorMessage`, entered only for
`BoilerplateError` instances. -/
def suggestionBlock : JsError → JStr
  | JsError.plain _ => []
  | JsError.boiler e =>
    match e.type with
    | ErrorType.NETWORK => networkSugg
    | ErrorType.PACKAGE_MANAGER =>
      pmSuggBase ++
        (match e.context.manager with
         | some m => cacheCleanLine m
         | none => [])
    | ErrorType.FILESYSTEM => fsSugg
    | ErrorType.VALIDATION => validationSugg
    | ErrorType.TEMPLATE => []
    | ErrorType.UNKNOWN => []

/-- The trailing general-troubleshooting pointer, always appended last. -/
def supportPointer : JStr :=
  ("\\n\\n".toList) ++
  chalk ("For more help, visit: https://github.com/yourusername/react-vite-boilerplate/issues".toList)

/-- `formatErrorMessage(error)`: header + message, kind-specific
suggestions, then the support pointer. -/
def formatErrorMessage (e : JsError) : JStr :=
  (chalk ("✗ Error: ".toList) ++ errMessage e ++ suggestionBlock e) ++
    supportPointer

/- ### Helper lemmas for the rollback manager -/

theorem foldl_addAction (as : List RbAction) :
    ∀ acc c, as.foldl addAction ⟨acc, c⟩ = ⟨acc ++ as, c⟩ := by
  induction as with
  | nil => intro acc c; simp [List.foldl]
  | cons a rest ih =>
    intro acc c
    simp only [List.foldl, addAction]
    rw [ih]
    simp

theorem mkManager_spec (as : List RbAction) :
    mkManager as = ⟨as, false⟩ := by
  unfold mkManager newRollbackManager
  rw [foldl_addAction]
  simp

theorem execLoop_fst (l : List RbAction) : (execLoop l).1 = l := by
  induction l with
  | nil => rfl
  | cons a rest ih => simp [execLoop, ih]

theorem executeTrace_of_completed (m : RollbackManager)
    (h : m.completed = true) : executeTrace m = [] := by
  unfold executeTrace execute
  rw [if_pos h]

theorem executeState_of_completed (m : RollbackManager)
    (h : m.completed = true) : executeState m = m := by
  unfold executeState execute
  rw [if_pos h]

theorem executeState_completed (m : RollbackManager) :
    (executeState m).completed = true := by
  unfold executeState execute
  by_cases h : m.completed = true
  · rw [if_pos h]; exact h
  · rw [if_neg h]

theorem lifetimeTrace_of_completed (m : RollbackManager)
    (h : m.completed = true) : ∀ ops, lifetimeTrace m ops = [] := by
  intro ops
  induction ops generalizing m with
  | nil => rfl
  | cons op rest ih =>
    cases op with
    | exec =>
      simp only [lifetimeTrace, lifetimeStep]
      rw [executeTrace_of_completed m h, executeState_of_completed m h, ih m h]
      rfl
    | mark =>
      simp only [lifetimeTrace, lifetimeStep]
      rw [ih (markCompleted m) rfl]
      rfl

theorem executeTrace_mkManager (as : List RbAction) :
    executeTrace (mkManager as) = as.reverse := by
  rw [mkManager_spec]
  unfold executeTrace execute
  simp [execLoop_fst]

theorem executeState_mkManager (as : List RbAction) :
    executeState (mkManager as) = ⟨as, true⟩ := by
  rw [mkManager_spec]
  unfold executeState execute
  simp

/- ### Claim theorems: rollback manager -/

/-- C1: for a manager with actions `a1..aN` added via `addAction` in order,
`execute()` invokes them in strict reverse insertion order (`aN` first,
`a1` last); over any subsequent lifetime (any sequence of `execute` /
`markCompleted` calls) the total invocation trace is either that single
reversed run or empty — so each action runs at most once, at most `N`
invocations happen in the manager's whole lifetime, a second `execute()`
invokes nothing, and `execute()` after `markCompleted()` invokes nothing. -/
theorem rollback_reverse_once (as : List RbAction) (ops : List RbOp) :
    executeTrace (mkManager as) = as.reverse ∧
    (lifetimeTrace (mkManager as) ops = as.reverse ∨
      lifetimeTrace (mkManager as) ops = []) ∧
    (lifetimeTrace (mkManager as) ops).length ≤ as.length ∧
    lifetimeTrace (mkManager as) (RbOp.exec :: RbOp.exec :: []) = as.reverse ∧
    lifetimeTrace (mkManager as) (RbOp.mark :: RbOp.exec :: []) = [] := by
  have hrun : ∀ ops', lifetimeTrace (mkManager as) (RbOp.exec :: ops') =
      as.reverse := by
    intro ops'
    simp only [lifetimeTrace, lifetimeStep]
    rw [executeTrace_mkManager, executeState_mkManager,
      lifetimeTrace_of_completed ⟨as, true⟩ rfl ops']
    simp
  have hmark : ∀ ops', lifetimeTrace (mkManager as) (RbOp.mark :: ops') =
      [] := by
    intro ops'
    simp only [lifetimeTrace, lifetimeStep]
    rw [mkManager_spec]
    rw [lifetimeTrace_of_completed (markCompleted ⟨as, false⟩) rfl ops']
    rfl
  have hdisj : lifetimeTrace (mkManager as) ops = as.reverse ∨
      lifetimeTrace (mkManager as) ops = [] := by
    cases ops with
    | nil => right; rfl
    | cons op rest =>
      cases op with
      | exec => left; exact hrun rest
      | mark => right; exact hmark rest
  refine ⟨executeTrace_mkManager as, hdisj, ?_, hrun _, hmark _⟩
  rcases hdisj with h | h
  · rw [h, List.length_reverse]
  · rw [h]; exact Nat.zero_le _

/-- C2: `execute()` never throws or rejects (it always produces an `ok`
result, for every manager state), and for every sequence of registered
actions — including sequences in which some or all actions fail — every
registered action is attempted: the invocation trace is exactly the full
reversed action list, independent of the individual actions' outcomes. -/
theorem execute_best_effort :
    (∀ m : RollbackManager, ∃ r, execute m = Except.ok r) ∧
    (∀ as : List RbAction, ∃ st logs,
      execute (mkManager as) = Except.ok (st, as.reverse, logs)) := by
  constructor
  · intro m
    unfold execute
    by_cases h : m.completed = true
    · rw [if_pos h]; exact ⟨_, rfl⟩
    · rw [if_neg h]; exact ⟨_, rfl⟩
  · intro as
    rw [mkManager_spec]
    unfold execute
    simp only [Bool.false_eq_true, if_false]
    refine ⟨⟨as, true⟩, (execLoop as.reverse).2, ?_⟩
    rw [execLoop_fst as.reverse]

/-- C10: `addAction` never fails and always appends, even on a completed
manager; an action added to a manager whose `completed` flag is already true
(as it is after `execute()` or `markCompleted()`) is appended to the action
list but is never invoked by any later sequence of `execute` /
`markCompleted` calls, because the flag stays true for the rest of the
manager's lifetime. -/
theorem addAction_after_completed (m : RollbackManager) (a : RbAction)
    (ops : List RbOp) :
    (addAction m a).actions = m.actions ++ [a] ∧
    (executeState m).completed = true ∧
    (markCompleted m).completed = true ∧
    (m.completed = true → lifetimeTrace (addAction m a) ops = []) := by
  refine ⟨rfl, executeState_completed m, rfl, ?_⟩
  intro h
  exact lifetimeTrace_of_completed (addAction m a) h ops

/-- Witness for C10 at a concrete completed manager. -/
theorem addAction_after_completed_witness :
    (addAction (markCompleted newRollbackManager)
        ⟨Except.ok (), []⟩).actions = [⟨Except.ok (), []⟩] ∧
    lifetimeTrace (addAction (markCompleted newRollbackManager)
        ⟨Except.ok (), []⟩) [RbOp.exec] = [] := by
  have h := addAction_after_completed (markCompleted newRollbackManager)
    ⟨Except.ok (), []⟩ [RbOp.exec]
  exact ⟨h.1, h.2.2.2 rfl⟩

/- ### Helper lemmas for the validator -/

theorem jsToLowerChar_shape (c : Char) :
    jsToLowerChar c = c ∨ c ∈ upperLetters := by
  rcases eq_or_ne c 'A' with h | hA
  · subst h; decide
  rcases eq_or_ne c 'B' with h | hB
  · subst h; decide
  rcases eq_or_ne c 'C' with h | hC
  · subst h; decide
  rcases eq_or_ne c 'D' with h | hD
  · subst h; decide
  rcases eq_or_ne c 'E' with h | hE
  · subst h; decide
  rcases eq_or_ne c 'F' with h | hF
  · subst h; decide
  rcases eq_or_ne c 'G' with h | hG
  · subst h; decide
  rcases eq_or_ne c 'H' with h | hH
  · subst h; decide
  rcases eq_or_ne c 'I' with h | hI
  · subst h; decide
  rcases eq_or_ne c 'J' with h | hJ
  · subst h; decide
  rcases eq_or_ne c 'K' with h | hK
  · subst h; decide
  rcases eq_or_ne c 'L' with h | hL
  · subst h; decide
  rcases eq_or_ne c 'M' with h | hM
  · subst h; decide
  rcases eq_or_ne c 'N' with h | hN
  · subst h; decide
  rcases eq_or_ne c 'O' with h | hO
  · subst h; decide
  rcases eq_or_ne c 'P' with h | hP
  · subst h; decide
  rcases eq_or_ne c 'Q' with h | hQ
  · subst h; decide
  rcases eq_or_ne c 'R' with h | hR
  · subst h; decide
  rcases eq_or_ne c 'S' with h | hS
  · subst h; decide
  rcases eq_or_ne c 'T' with h | hT
  · subst h; decide
  rcases eq_or_ne c 'U' with h | hU
  · subst h; decide
  rcases eq_or_ne c 'V' with h | hV
  · subst h; decide
  rcases eq_or_ne c 'W' with h | hW
  · subst h; decide
  rcases eq_or_ne c 'X' with h | hX
  · subst h; decide
  rcases eq_or_ne c 'Y' with h | hY
  · subst h; decide
  rcases eq_or_ne c 'Z' with h | hZ
  · subst h; decide
  left
  unfold jsToLowerChar
  rw [if_neg hA, if_neg hB, if_neg hC, if_neg hD, if_neg hE, if_neg hF, if_neg hG, if_neg hH, if_neg hI, if_neg hJ, if_neg hK, if_neg hL, if_neg hM, if_neg hN, if_neg hO, if_neg hP, if_neg hQ, if_neg hR, if_neg hS, if_neg hT, if_neg hU, if_neg hV, if_neg hW, if_neg hX, if_neg hY, if_neg hZ]

theorem alnum_facts : ∀ c ∈ alnumChars,
    jsIsWs c = false ∧ c ∉ invalidChars ∧ ciAlnumChar c = true ∧
    c ≠ '.' ∧ c ≠ '_' ∧ c ≠ '@' := by decide

theorem specTail_facts : ∀ c ∈ specTailChars,
    jsIsWs c = false ∧ c ∉ invalidChars ∧ ciNameChar c = true := by decide

theorem nameCharsLC_facts : ∀ c ∈ nameCharsLC,
    jsIsWs c = false ∧ c ∉ invalidChars ∧ ciNameChar c = true := by decide

theorem upper_tail_facts : ∀ c ∈ upperLetters,
    jsIsWs c = false ∧ c ∉ invalidChars ∧ ciNameChar c = true := by decide

theorem lowerLetters_head_facts : ∀ c ∈ lowerLetters,
    jsIsWs c = false ∧ c ∉ invalidChars ∧ ciAlnumChar c = true ∧
    c ≠ '.' ∧ c ≠ '_' ∧ c ≠ '@' := by decide

theorem upper_head_facts : ∀ c ∈ upperLetters,
    jsIsWs c = false ∧ c ∉ invalidChars ∧ ciAlnumChar c = true ∧
    c ≠ '.' ∧ c ≠ '_' ∧ c ≠ '@' := by decide

theorem mem_nameCharsLC_facts (c : Char)
    (h : jsToLowerChar c ∈ nameCharsLC) :
    jsIsWs c = false ∧ c ∉ invalidChars ∧ ciNameChar c = true := by
  rcases jsToLowerChar_shape c with heq | hup
  · rw [heq] at h
    exact nameCharsLC_facts c h
  · exact upper_tail_facts c hup

theorem mem_lowerLetters_head_facts (c : Char)
    (h : jsToLowerChar c ∈ lowerLetters) :
    jsIsWs c = false ∧ c ∉ invalidChars ∧ ciAlnumChar c = true ∧
    c ≠ '.' ∧ c ≠ '_' ∧ c ≠ '@' := by
  rcases jsToLowerChar_shape c with heq | hup
  · rw [heq] at h
    exact lowerLetters_head_facts c h
  · exact upper_head_facts c hup

theorem dropWhile_eq_self_of_head {p : Char → Bool} (s : JStr)
    (h : ∀ c ∈ s, p c = false) : s.dropWhile p = s := by
  cases s with
  | nil => rfl
  | cons c cs =>
    rw [List.dropWhile_cons, h c (List.mem_cons_self c cs)]
    simp

theorem jsTrim_eq_self (s : JStr) (h : ∀ c ∈ s, jsIsWs c = false) :
    jsTrim s = s := by
  unfold jsTrim
  rw [dropWhile_eq_self_of_head s h,
    dropWhile_eq_self_of_head s.reverse
      (fun c hc => h c (List.mem_reverse.mp hc)),
    List.reverse_reverse]

theorem reserved_chars_sub :
    ∀ r ∈ RESERVED_NAMES, ∀ d ∈ r, d ∈ nameCharsLC := by decide

theorem reserved_head_lower : ∀ r ∈ RESERVED_NAMES,
    r.headI ∈ lowerLetters := by decide

theorem reserved_len : ∀ r ∈ RESERVED_NAMES, r.length ≤ 214 := by decide

theorem nil_not_reserved : ([] : JStr) ∉ RESERVED_NAMES := by decide

/- ### Claim theorems: validateProjectName -/

/-- C3: every string matching `^[a-zA-Z0-9][a-zA-Z0-9_.-]*$` of length at
most 214 whose lowercased form is not in the reserved-name set is accepted
by `validateProjectName`. -/
theorem validateProjectName_ok (s : JStr)
    (hp : specNamePattern s = true) (hlen : s.length ≤ 214)
    (hres : jsToLower s ∉ RESERVED_NAMES) :
    (validateProjectName (JSValue.str s)).valid = true := by
  cases s with
  | nil => simp [specNamePattern] at hp
  | cons c cs =>
    simp only [specNamePattern, Bool.and_eq_true, decide_eq_true_eq,
      List.all_eq_true] at hp
    obtain ⟨hc, hcs⟩ := hp
    have hcf := alnum_facts c hc
    have htail : ∀ x ∈ cs,
        jsIsWs x = false ∧ x ∉ invalidChars ∧ ciNameChar x = true :=
      fun x hx => specTail_facts x (hcs x hx)
    have hws : ∀ x ∈ c :: cs, jsIsWs x = false := by
      intro x hx
      rcases List.mem_cons.mp hx with rfl | hx'
      · exact hcf.1
      · exact (htail x hx').1
    have h1 : ¬(c :: cs = []) := by simp
    have h2 : ¬((jsTrim (c :: cs)).length = 0) := by
      rw [jsTrim_eq_self _ hws]; simp
    have h3 : ¬(214 < (c :: cs).length) := by omega
    have h4 : ¬((headIs (c :: cs) '.' || headIs (c :: cs) '_') = true) := by
      simp only [headIs, Bool.or_eq_true, beq_iff_eq]
      rintro (h | h)
      · exact hcf.2.2.2.1 h
      · exact hcf.2.2.2.2.1 h
    have h5 : ¬((c :: cs).any (fun x => decide (x ∈ invalidChars)) = true) := by
      simp only [List.any_eq_true, decide_eq_true_eq]
      rintro ⟨x, hx, hmem⟩
      rcases List.mem_cons.mp hx with rfl | hx'
      · exact hcf.2.1 hmem
      · exact (htail x hx').2.1 hmem
    have h6 : ¬(headIs (c :: cs) '@' = true) := by
      simp only [headIs, beq_iff_eq]
      exact hcf.2.2.2.2.2
    have hvp : validPatternMatch (c :: cs) = true := by
      simp only [validPatternMatch, Bool.and_eq_true, List.all_eq_true]
      exact ⟨hcf.2.2.1, fun x hx => (htail x hx).2.2⟩
    have h8 : ¬(validPatternMatch (c :: cs) = false) := by rw [hvp]; simp
    have h9 : ¬(headIs (c :: cs) '@' = false ∧
        jsToLower (c :: cs) ∈ RESERVED_NAMES) := fun h => hres h.2
    simp only [validateProjectName]
    rw [if_neg h1, if_neg h2, if_neg h3, if_neg h4, if_neg h5, if_neg h6,
      if_neg h8, if_neg h9]

/-- Witness for C3 at the concrete name `my-app`. -/
theorem validateProjectName_ok_witness :
    specNamePattern ("my-app".toList) = true ∧
    ("my-app".toList).length ≤ 214 ∧
    jsToLower ("my-app".toList) ∉ RESERVED_NAMES ∧
    (validateProjectName (JSValue.str ("my-app".toList))).valid = true :=
  ⟨by decide, by decide, by decide,
    validateProjectName_ok ("my-app".toList) (by decide) (by decide)
      (by decide)⟩

/-- C4: every string whose ASCII-lowercased form is in the reserved-name
set (and that does not start with `@`) is rejected, with an error message
containing the words `reserved name`; the test is case-insensitive, so all
upper/mixed-case variants of the reserved names are covered. -/
theorem validateProjectName_reserved (s : JStr)
    (hres : jsToLower s ∈ RESERVED_NAMES)
    (hat : headIs s '@' = false) :
    (validateProjectName (JSValue.str s)).valid = false ∧
    ∃ a b, (validateProjectName (JSValue.str s)).error =
      some (a ++ ("reserved name".toList) ++ b) := by
  cases s with
  | nil => exact absurd hres nil_not_reserved
  | cons c cs =>
    have hmemall : ∀ x ∈ c :: cs, jsToLowerChar x ∈ nameCharsLC :=
      fun x hx =>
        reserved_chars_sub _ hres (jsToLowerChar x)
          (List.mem_map_of_mem jsToLowerChar hx)
    have hheadmem : jsToLowerChar c ∈ lowerLetters := by
      have h := reserved_head_lower _ hres
      simpa [jsToLower, List.headI] using h
    have hcf := mem_lowerLetters_head_facts c hheadmem
    have htail : ∀ x ∈ c :: cs,
        jsIsWs x = false ∧ x ∉ invalidChars ∧ ciNameChar x = true :=
      fun x hx => mem_nameCharsLC_facts x (hmemall x hx)
    have hws : ∀ x ∈ c :: cs, jsIsWs x = false :=
      fun x hx => (htail x hx).1
    have hlen : (c :: cs).length ≤ 214 := by
      have h := reserved_len _ hres
      simpa [jsToLower] using h
    have h1 : ¬(c :: cs = []) := by simp
    have h2 : ¬((jsTrim (c :: cs)).length = 0) := by
      rw [jsTrim_eq_self _ hws]; simp
    have h3 : ¬(214 < (c :: cs).length) := by omega
    have h4 : ¬((headIs (c :: cs) '.' || headIs (c :: cs) '_') = true) := by
      simp only [headIs, Bool.or_eq_true, beq_iff_eq]
      rintro (h | h)
      · exact hcf.2.2.2.1 h
      · exact hcf.2.2.2.2.1 h
    have h5 : ¬((c :: cs).any (fun x => decide (x ∈ invalidChars)) = true) := by
      simp only [List.any_eq_true, decide_eq_true_eq]
      rintro ⟨x, hx, hmem⟩
      exact (htail x hx).2.1 hmem
    have h6 : ¬(headIs (c :: cs) '@' = true) := by rw [hat]; simp
    have hvp : validPatternMatch (c :: cs) = true := by
      simp only [validPatternMatch, Bool.and_eq_true, List.all_eq_true]
      refine ⟨hcf.2.2.1, fun x hx => ?_⟩
      exact (htail x (List.mem_cons_of_mem c hx)).2.2
    have h8 : ¬(validPatternMatch (c :: cs) = false) := by rw [hvp]; simp
    have h9 : headIs (c :: cs) '@' = false ∧
        jsToLower (c :: cs) ∈ RESERVED_NAMES := ⟨hat, hres⟩
    simp only [validateProjectName]
    rw [if_neg h1, if_neg h2, if_neg h3, if_neg h4, if_neg h5, if_neg h6,
      if_neg h8, if_pos h9]
    refine ⟨rfl, '"' :: ((c :: cs) ++ ("\" is a ".toList)),
      (" and cannot be used".toList), ?_⟩
    simp only [reservedErr, List.cons_append, List.append_assoc,
      Option.some.injEq, List.cons.injEq, List.append_cancel_left_eq,
      true_and]
    decide

/-- Witness for C4 at the mixed-case concrete name `CON`. -/
theorem validateProjectName_reserved_witness :
    jsToLower ("CON".toList) ∈ RESERVED_NAMES ∧
    headIs ("CON".toList) '@' = false ∧
    ((validateProjectName (JSValue.str ("CON".toList))).valid = false ∧
      ∃ a b, (validateProjectName (JSValue.str ("CON".toList))).error =
        some (a ++ ("reserved name".toList) ++ b)) :=
  ⟨by decide, by decide,
    validateProjectName_reserved ("CON".toList) (by decide) (by decide)⟩

/-- C9: `validateProjectName` is a total Lean function (hence deterministic
and side-effect free) over all inputs, string or not; whenever the result
has `valid = false` the `error` field is present and non-empty. -/
theorem validateProjectName_total (v : JSValue)
    (h : (validateProjectName v).valid = false) :
    ∃ e, (validateProjectName v).error = some e ∧ e ≠ [] := by
  cases v with
  | str s =>
    simp only [validateProjectName] at h ⊢
    split_ifs at h ⊢ <;>
      first
      | exact ⟨reqErr, rfl, by decide⟩
      | exact ⟨emptyErr, rfl, by decide⟩
      | exact ⟨lenErr, rfl, by decide⟩
      | exact ⟨startErr, rfl, by decide⟩
      | exact ⟨invalidCharsErr, rfl, by decide⟩
      | exact ⟨scopeErr, rfl, by decide⟩
      | exact ⟨charsetErr, rfl, by decide⟩
      | exact ⟨reservedErr s, rfl, by simp [reservedErr]⟩
  | nullV => exact ⟨reqErr, rfl, by decide⟩
  | undefinedV => exact ⟨reqErr, rfl, by decide⟩
  | nonString => exact ⟨reqErr, rfl, by decide⟩

/-- Witness for C9 at the concrete input `null`. -/
theorem validateProjectName_total_witness :
    (validateProjectName JSValue.nullV).valid = false ∧
    ∃ e, (validateProjectName JSValue.nullV).error = some e ∧ e ≠ [] :=
  ⟨rfl, validateProjectName_total JSValue.nullV rfl⟩

/- ### Claim theorems: package-manager resolver -/

theorem findLockPM_eq_find (fsEx : String → Bool) (dir : String)
    (available : List String) :
    ∀ pairs : List (String × PMConfig),
      findLockPM fsEx dir available pairs =
        (pairs.find? (fun p =>
          fsEx (pathJoinStr dir p.2.lockFile) &&
            decide (p.1 ∈ available))).map Prod.fst := by
  intro pairs
  induction pairs with
  | nil => rfl
  | cons pr rest ih =>
    obtain ⟨manager, config⟩ := pr
    cases h : fsEx (pathJoinStr dir config.lockFile) &&
        decide (manager ∈ available) with
    | false =>
      rw [List.find?_cons_of_neg _ (by simpa using h)]
      unfold findLockPM
      rw [if_neg (by simp [h]), ih]
    | true =>
      rw [List.find?_cons_of_pos _ (by simpa using h)]
      unfold findLockPM
      rw [if_pos (by simp [h])]
      rfl

/-- C5 (counterexample): at `available = [""]` with no lockfiles the code
returns `"npm"` (the JavaScript `available[0] || 'npm'` treats the empty
string as falsy), while the claim's resolution procedure says the first
element `""` is returned. -/
theorem getPreferred_empty_string_counterexample :
    getPreferredPackageManager (fun _ => false) ("/p/q") [""] = "npm" ∧
    claimC5Preferred (fun _ => false) ("/p/q") [""] = "" ∧
    getPreferredPackageManager (fun _ => false) ("/p/q") [""] ≠
      claimC5Preferred (fun _ => false) ("/p/q") [""] := by
  refine ⟨rfl, rfl, ?_⟩
  decide

/-- C5 (amended): `getPreferredPackageManager` follows exactly the claimed
resolution order — registry-order lockfile scan of the project directory,
then of its parent directory, then the fixed priority order
`pnpm, yarn, bun, npm` filtered by `available` — with the final fallback
amended to: the first element of `available`, except that `npm` is returned
when `available` is empty or its first element is the empty string.  With
only `yarn.lock` in the project directory and `available = [npm, yarn]` it
returns `yarn`; with `available = []` it returns `npm`. -/
theorem getPreferred_resolution_amended :
    (∀ (fsEx : String → Bool) (projectDir : String) (available : List String),
      getPreferredPackageManager fsEx projectDir available =
        amendedC5Preferred fsEx projectDir available) ∧
    getPreferredPackageManager (fun p => p == ("/a/b/yarn.lock"))
      ("/a/b") (["npm", "yarn"]) = "yarn" ∧
    getPreferredPackageManager (fun _ => false) ("/a/b") ([]) = "npm" := by
  refine ⟨?_, rfl, rfl⟩
  intro fsEx projectDir available
  unfold getPreferredPackageManager amendedC5Preferred
  rw [findLockPM_eq_find, findLockPM_eq_find]

/- ### Claim theorems: error formatter -/

/-- C8: on a PackageManager-kind `BoilerplateError` whose context carries a
`manager`, the formatted message contains the literal suggestion
`<manager> cache clean --force` (for `npm` the literal
`npm cache clean --force`), and for every error input of any kind the
output ends with the support/reporting pointer.  `formatErrorMessage` is a
pure Lean function of the error value, hence deterministic and
side-effect free. -/
theorem formatErrorMessage_spec :
    (∀ (msg mgr : JStr), ∃ a b,
      formatErrorMessage (JsError.boiler
        ⟨msg, ErrorType.PACKAGE_MANAGER, ⟨some mgr⟩⟩) =
        a ++ (mgr ++ (" cache clean --force".toList)) ++ b) ∧
    (∃ a b,
      formatErrorMessage (JsError.boiler
        ⟨("install failed".toList), ErrorType.PACKAGE_MANAGER,
          ⟨some ("npm".toList)⟩⟩) =
        a ++ ("npm cache clean --force".toList) ++ b) ∧
    (∀ e : JsError, ∃ a, formatErrorMessage e = a ++ supportPointer) := by
  have h1 : ∀ (msg mgr : JStr), ∃ a b,
      formatErrorMessage (JsError.boiler
        ⟨msg, ErrorType.PACKAGE_MANAGER, ⟨some mgr⟩⟩) =
        a ++ (mgr ++ (" cache clean --force".toList)) ++ b := by
    intro msg mgr
    refine ⟨chalk ("✗ Error: ".toList) ++ msg ++ pmSuggBase ++
      ("\\n  • Try: ".toList), supportPointer, ?_⟩
    simp [formatErrorMessage, suggestionBlock, errMessage, cacheCleanLine,
      List.append_assoc]
  refine ⟨h1, ?_, fun e => ⟨_, rfl⟩⟩
  have heq : ("npm cache clean --force".toList : JStr) =
      ("npm".toList) ++ (" cache clean --force".toList) := by decide
  rw [heq]
  exact h1 ("install failed".toList) ("npm".toList)

/- ### Helper lemmas for path resolution and isSafeToRemove -/

theorem splitAux_no_sep (sep : Char) :
    ∀ s : JStr, sep ∉ s → splitAux sep s = (s, []) := by
  intro s
  induction s with
  | nil => intro _; rfl
  | cons c cs ih =>
    intro h
    simp only [List.mem_cons, not_or] at h
    have hc : ¬(c = sep) := fun e => h.1 e.symm
    simp [splitAux, hc, ih h.2]

theorem splitAux_append_sep (sep : Char) :
    ∀ s t : JStr, sep ∉ s →
      splitAux sep (s ++ sep :: t) = (s, splitOnChar sep t) := by
  intro s
  induction s with
  | nil =>
    intro t _
    simp [splitAux, splitOnChar]
  | cons c cs ih =>
    intro t h
    simp only [List.mem_cons, not_or] at h
    have hc : ¬(c = sep) := fun e => h.1 e.symm
    simp [splitAux, hc, ih t h.2]

theorem split_join (n : List JStr) (hne : n ≠ [])
    (hsep : ∀ s ∈ n, '/' ∉ s) : splitOnChar '/' (joinSegs n) = n := by
  induction n with
  | nil => exact absurd rfl hne
  | cons s rest ih =>
    cases rest with
    | nil =>
      have h1 : '/' ∉ s := hsep s (by simp)
      simp [joinSegs, splitOnChar, splitAux_no_sep '/' s h1]
    | cons s2 rest2 =>
      have h1 : '/' ∉ s := hsep s (by simp)
      show splitOnChar '/' (s ++ '/' :: joinSegs (s2 :: rest2)) =
        s :: s2 :: rest2
      unfold splitOnChar
      rw [splitAux_append_sep '/' s _ h1]
      have := ih (by simp) (fun x hx => hsep x (List.mem_cons_of_mem _ hx))
      rw [show (splitOnChar '/' (joinSegs (s2 :: rest2)) : List JStr) =
        s2 :: rest2 from this]

theorem splitAux_pieces_no_sep (sep : Char) :
    ∀ s : JStr, sep ∉ (splitAux sep s).1 ∧
      ∀ p ∈ (splitAux sep s).2, sep ∉ p := by
  intro s
  induction s with
  | nil => exact ⟨by simp [splitAux], by simp [splitAux]⟩
  | cons c cs ih =>
    by_cases hc : c = sep
    · refine ⟨by simp [splitAux, hc], ?_⟩
      intro p hp
      rw [show (splitAux sep (c :: cs)).2 =
        (splitAux sep cs).1 :: (splitAux sep cs).2 from by
          simp [splitAux, hc]] at hp
      rcases List.mem_cons.mp hp with rfl | hp
      · exact ih.1
      · exact ih.2 p hp
    · constructor
      · intro hmem
        rw [show (splitAux sep (c :: cs)).1 = c :: (splitAux sep cs).1 from by
          simp [splitAux, hc]] at hmem
        rcases List.mem_cons.mp hmem with h | h
        · exact hc h.symm
        · exact ih.1 h
      · intro p hp
        rw [show (splitAux sep (c :: cs)).2 = (splitAux sep cs).2 from by
          simp [splitAux, hc]] at hp
        exact ih.2 p hp

theorem splitOnChar_no_sep (sep : Char) (s : JStr) :
    ∀ p ∈ splitOnChar sep s, sep ∉ p := by
  intro p hp
  unfold splitOnChar at hp
  rcases List.mem_cons.mp hp with rfl | hp
  · exact (splitAux_pieces_no_sep sep s).1
  · exact (splitAux_pieces_no_sep sep s).2 p hp

theorem foldl_normStep_clean :
    ∀ (segs acc : List JStr),
      (∀ s ∈ segs, '/' ∉ s) → (∀ s ∈ acc, CleanSeg s) →
      ∀ s ∈ List.foldl normStep acc segs, CleanSeg s := by
  intro segs
  induction segs with
  | nil =>
    intro acc _ hacc s hs
    exact hacc s hs
  | cons seg rest ih =>
    intro acc hsegs hacc s hs
    rw [List.foldl_cons] at hs
    refine ih (normStep acc seg)
      (fun x hx => hsegs x (List.mem_cons_of_mem _ hx)) ?_ s hs
    intro x hx
    unfold normStep at hx
    split_ifs at hx with h1 h2
    · exact hacc x hx
    · exact hacc x (List.dropLast_subset _ hx)
    · rcases List.mem_append.mp hx with hx | hx
      · exact hacc x hx
      · rcases List.mem_singleton.mp hx with rfl
        rw [not_or] at h1
        exact ⟨h1.1, h1.2, h2, hsegs x (List.mem_cons_self _ _)⟩

theorem normSegs_clean (segs : List JStr) (h : ∀ s ∈ segs, '/' ∉ s) :
    ∀ s ∈ normSegs segs, CleanSeg s :=
  foldl_normStep_clean segs [] h (by simp)

theorem foldl_normStep_of_clean :
    ∀ segs acc : List JStr, (∀ s ∈ segs, CleanSeg s) →
      List.foldl normStep acc segs = acc ++ segs := by
  intro segs
  induction segs with
  | nil => intro acc _; simp
  | cons seg rest ih =>
    intro acc h
    have hc := h seg (List.mem_cons_self _ _)
    rw [List.foldl_cons,
      show normStep acc seg = acc ++ [seg] from by
        unfold normStep
        rw [if_neg (by rintro (e | e); exacts [hc.1 e, hc.2.1 e]),
          if_neg hc.2.2.1],
      ih (acc ++ [seg]) (fun x hx => h x (List.mem_cons_of_mem _ hx))]
    simp

theorem jsResolve_abs_clean (cwd : JStr) (n : List JStr)
    (h : ∀ s ∈ n, CleanSeg s) :
    jsResolve cwd ('/' :: joinSegs n) = '/' :: joinSegs n := by
  rw [show jsResolve cwd ('/' :: joinSegs n) =
    '/' :: joinSegs (normSegs (splitOnChar '/' ('/' :: joinSegs n))) from rfl]
  rw [show splitOnChar '/' ('/' :: joinSegs n) =
    [] :: splitOnChar '/' (joinSegs n) from by simp [splitOnChar, splitAux]]
  rw [show ∀ l : List JStr, normSegs ([] :: l) = normSegs l from
    fun l => by simp [normSegs, List.foldl_cons, normStep]]
  rcases eq_or_ne n [] with rfl | hne
  · rfl
  · rw [split_join n hne (fun s hs => (h s hs).2.2.2),
      show normSegs n = n from by
        unfold normSegs
        rw [foldl_normStep_of_clean n [] h]
        simp]

theorem jsResolve_idem (cwd p : JStr) :
    jsResolve cwd (jsResolve cwd p) = jsResolve cwd p := by
  have e : jsResolve cwd p = '/' :: joinSegs (normSegs (splitOnChar '/'
      (if headIs p '/' then p else cwd ++ ('/' :: p)))) := rfl
  rw [e]
  exact jsResolve_abs_clean cwd _
    (normSegs_clean _ (splitOnChar_no_sep '/' _))

theorem sysLoop_of_mem (r : JStr) :
    ∀ l : List JStr, r ∈ l → sysLoop r l = some false := by
  intro l hmem
  induction l with
  | nil => cases hmem
  | cons sys rest ih =>
    rcases List.mem_cons.mp hmem with rfl | hr
    · simp [sysLoop]
    · by_cases h1 : r = sys
      · simp [sysLoop, h1]
      · simp [sysLoop, h1, ih hr]

theorem sysLoop_some_false (r : JStr) :
    ∀ (l : List JStr) (b : Bool), sysLoop r l = some b → b = false ∧ r ∈ l := by
  intro l
  induction l with
  | nil =>
    intro b h
    simp [sysLoop] at h
  | cons sys rest ih =>
    intro b h
    by_cases h1 : r = sys
    · rw [show sysLoop r (sys :: rest) = some false from by
        simp [sysLoop, h1]] at h
      refine ⟨by injection h with h'; exact h'.symm, by simp [h1]⟩
    · rw [show sysLoop r (sys :: rest) = sysLoop r rest from by
        simp [sysLoop, h1]] at h
      obtain ⟨hb, hm⟩ := ih b h
      exact ⟨hb, List.mem_cons_of_mem _ hm⟩

theorem isSafeToRemove_false_iff (env : SysEnv) (d : JStr) :
    isSafeToRemove env d = false ↔
      (jsResolve env.cwd d ∈ systemPaths env ∨
        containsSub dotdotSeq (jsResolve env.cwd d) = true ∨
        containsSub tildeSeq (jsResolve env.cwd d) = true) := by
  rw [show isSafeToRemove env d =
    (match sysLoop (jsResolve env.cwd d) (systemPaths env) with
     | some b => b
     | none =>
       if (containsSub dotdotSeq (jsResolve env.cwd d) ||
           containsSub tildeSeq (jsResolve env.cwd d)) = true then false
       else true) from rfl]
  cases hs : sysLoop (jsResolve env.cwd d) (systemPaths env) with
  | some b =>
    obtain ⟨hb, hmem⟩ := sysLoop_some_false _ _ _ hs
    subst hb
    simp [hmem]
  | none =>
    by_cases hc : (containsSub dotdotSeq (jsResolve env.cwd d) ||
        containsSub tildeSeq (jsResolve env.cwd d)) = true
    · rw [if_pos hc]
      constructor
      · intro _
        exact Or.inr (by simpa using hc)
      · intro _
        rfl
    · rw [if_neg hc]
      constructor
      · intro h
        exact absurd h (by simp)
      · simp only [Bool.or_eq_true, not_or, Bool.not_eq_true] at hc
        rintro (hmem | hcc | hcc)
        · rw [sysLoop_of_mem _ _ hmem] at hs
          cases hs
        · rw [hc.1] at hcc
          cases hcc
        · rw [hc.2] at hcc
          cases hcc

/- ### Claim theorems: validateTargetDirectory -/

/-- C6 (counterexample): the input `/a/../b` contains a parent-traversal
segment, yet with a permissive filesystem `validateTargetDirectory` accepts
it — `path.resolve` normalizes the `..` away before the `includes` check,
so the claim's "regardless of filesystem state, any input containing `..`
is rejected" is false on the code. -/
theorem validateTargetDirectory_dotdot_counterexample :
    containsSub dotdotSeq ("/a/../b".toList) = true ∧
    (validateTargetDirectory exEnv permissiveFS ("/a/../b".toList)).valid =
      true := by
  constructor
  · decide
  · rfl

/-- C6 (amended): every input path whose *resolved* form still contains a
`..` or `~` character sequence is rejected by `validateTargetDirectory`,
for every environment and every filesystem state. -/
theorem validateTargetDirectory_unsafe_resolved (env : SysEnv) (fs : FSModel)
    (p : JStr)
    (h : containsSub dotdotSeq (jsResolve env.cwd p) = true ∨
      containsSub tildeSeq (jsResolve env.cwd p) = true) :
    (validateTargetDirectory env fs p).valid = false := by
  have hsafe : isSafeToRemove env (jsResolve env.cwd p) = false := by
    apply (isSafeToRemove_false_iff env (jsResolve env.cwd p)).mpr
    rw [jsResolve_idem]
    exact Or.inr h
  unfold validateTargetDirectory
  rw [if_pos hsafe]

/-- Witness for the amended C6 at the concrete input `/a/..b` (a resolved
path that keeps its `..` character sequence). -/
theorem validateTargetDirectory_unsafe_resolved_witness :
    (containsSub dotdotSeq (jsResolve exEnv.cwd ("/a/..b".toList)) = true ∨
      containsSub tildeSeq (jsResolve exEnv.cwd ("/a/..b".toList)) = true) ∧
    (validateTargetDirectory exEnv permissiveFS ("/a/..b".toList)).valid =
      false :=
  ⟨Or.inl (by decide),
    validateTargetDirectory_unsafe_resolved exEnv permissiveFS
      ("/a/..b".toList) (Or.inl (by decide))⟩

/-- C7: the system-directory protection (`isSafeToRemove`, as invoked by
`validateTargetDirectory`) rejects a path exactly when its resolved form is
string-equal to one of the fixed protected paths (`/`, the user home, the
current working directory, `/usr`, `/etc`, `/var`, and the listed OS system
directories) or the resolved string contains `..` or `~`; the
`startsWith` descendant test in the loop never causes a rejection by
itself.  A directory strictly nested under a protected path — concretely, a
project directory directly inside the current working directory — is
permitted. -/
theorem system_dir_protection_exact :
    (∀ (env : SysEnv) (d : JStr),
      isSafeToRemove env d = false ↔
        (jsResolve env.cwd d ∈ systemPaths env ∨
          containsSub dotdotSeq (jsResolve env.cwd d) = true ∨
          containsSub tildeSeq (jsResolve env.cwd d) = true)) ∧
    (validateTargetDirectory ⟨("/work".toList), ("/home/u".toList)⟩
      permissiveFS ("/work/myproj".toList)).valid = true :=
  ⟨isSafeToRemove_false_iff, by rfl⟩
